import Mathlib

/-!
# Escape-sequence detecting reader (`proxy.go`, package `gottyclient`)

A shallow embedding of `escapeProxy.Read` and `NewEscapeProxy`.

* A Go `[]byte` is a `Slice`: the visible part `buf[0:len(buf)]` together with the
  rest of its backing array up to `cap(buf)`, so that `buf[0:nr]` with
  `len(buf) < nr ≤ cap(buf)` and the run-time panic for `nr > cap(buf)` are both
  represented.
* The call `r.r.Read(buf)` on the wrapped reader is an input of each step: a
  `ReadResult` holds the buffer as the wrapped reader left it, the count and the
  error it returned.
* A run-time panic (index or slice bound out of range) is `none`.
* A Go `error` value is `Error ε`: either `EscapeError{}` or any other error value
  (`Error.src e`, with `e` in an arbitrary type `ε`). The wrapped reader may return
  either kind, and `Read` hands its error on unchanged (lines 55, 72).
-/

namespace gottyclient

/-- Go's `byte`. -/
abbrev Byte := UInt8

/-- A Go byte slice: `data` is `buf[0:len(buf)]`, `spare` the backing array from
`len(buf)` up to `cap(buf)`. -/
structure Slice where
  data : List Byte
  spare : List Byte
deriving DecidableEq, Repr

namespace Slice

/-- Go's `len(buf)`. -/
def len (buf : Slice) : Nat := buf.data.length

/-- Go's `cap(buf)`. -/
def cap (buf : Slice) : Nat := buf.data.length + buf.spare.length

/-- Go's `copy(buf[0:nr], src)` for `nr ≤ cap(buf)`: the first `min nr (len src)`
bytes of the backing array are overwritten with those of `src`; `len(buf)` and
`cap(buf)` are unchanged. -/
def copyInto (buf : Slice) (nr : Nat) (src : List Byte) : Slice :=
  let arr := buf.data ++ buf.spare
  let m := min nr src.length
  let arr1 := src.take m ++ arr.drop m
  { data := arr1.take buf.data.length, spare := arr1.drop buf.data.length }

end Slice

/-- Go's non-nil `error` values: `EscapeError{}`, or any other error value (`io.EOF`
included). Both the wrapped reader and `escapeProxy.Read` may return either. -/
inductive Error (ε : Type) where
  | src (e : ε)
  | EscapeError
deriving DecidableEq, Repr

/-- What `r.r.Read(buf)` did: the buffer afterwards, the count `nr` and the error
(`none` for `nil`). -/
structure ReadResult (ε : Type) where
  buf : Slice
  nr : Int
  err : Option (Error ε)
deriving DecidableEq, Repr

/-- The struct `escapeProxy`. The field `r` is a handle of the wrapped reader, whose
reads are supplied to `Read` as `ReadResult`s. -/
structure escapeProxy where
  escapeKeys : List Byte
  escapeKeyPos : Nat
  r : Nat
deriving DecidableEq, Repr

/-- `NewEscapeProxy(r, escapeKeys)`: `escapeKeyPos` has Go's zero value. -/
def NewEscapeProxy (r : Nat) (escapeKeys : List Byte) : escapeProxy :=
  { escapeKeys := escapeKeys, escapeKeyPos := 0, r := r }

/-- What one call of `escapeProxy.Read` leaves behind: the receiver, the caller's
buffer, and the returned `(int, error)`. -/
structure Return (ε : Type) where
  r : escapeProxy
  buf : Slice
  n : Int
  err : Option (Error ε)
deriving DecidableEq, Repr

/-- The closure `preserve` of `Read` (lines 58-66): it updates `nr`, builds
`escapeKeys[:escapeKeyPos] ++ buf`, resets `escapeKeyPos` and copies into `buf[0:nr]`.
`none` when one of the two slice expressions is out of range (`escapeKeys` is taken to
have no spare capacity, so `escapeKeys[:escapeKeyPos]` needs `escapeKeyPos ≤ len`). -/
def preserve (r : escapeProxy) (buf : Slice) (nr : Int) : Option (escapeProxy × Slice × Int) :=
  let nr1 := nr + (r.escapeKeyPos : Int)
  if r.escapeKeyPos ≤ r.escapeKeys.length then
    let kept := r.escapeKeys.take r.escapeKeyPos ++ buf.data
    if 0 ≤ nr1 ∧ nr1 ≤ (buf.cap : Int) then
      some ({ r with escapeKeyPos := 0 }, buf.copyInto nr1.toNat kept, nr1)
    else none
  else none

/-- The part shared by the two `if r.escapeKeyPos > 0 { preserve() }; return nr, err`
blocks (lines 69-72 and 76-79). -/
def flush {ε : Type} (r : escapeProxy) (buf : Slice) (nr : Int) (err : Option (Error ε)) :
    Option (Return ε) :=
  if r.escapeKeyPos > 0 then
    match preserve r buf nr with
    | some (r1, buf1, nr1) => some { r := r1, buf := buf1, n := nr1, err := err }
    | none => none
  else some { r := r, buf := buf, n := nr, err := err }

/-- The method `escapeProxy.Read` (lines 51-95), given the result `u` of the wrapped
reader's `Read` on the same buffer. -/
def Read {ε : Type} (r : escapeProxy) (u : ReadResult ε) : Option (Return ε) :=
  if r.escapeKeys.length = 0 then
    some { r := r, buf := u.buf, n := u.nr, err := u.err }
  else if u.nr ≠ 1 ∨ u.err.isSome then
    flush r u.buf u.nr u.err
  else
    match u.buf.data.head?, r.escapeKeys.get? r.escapeKeyPos with
    | some b, some k =>
      if b ≠ k then
        flush r u.buf u.nr none
      else if r.escapeKeyPos = r.escapeKeys.length - 1 then
        some { r := r, buf := u.buf, n := 0, err := some Error.EscapeError }
      else
        some { r := { r with escapeKeyPos := r.escapeKeyPos + 1 }, buf := u.buf,
               n := u.nr - ((r.escapeKeyPos + 1 : Nat) : Int), err := none }
    | _, _ => none

/-- Successive calls of `Read` on one proxy, one per result of the wrapped reader.
`none` as soon as one call panics. -/
def run {ε : Type} (r : escapeProxy) : List (ReadResult ε) → Option (List (Return ε))
  | [] => some []
  | u :: us =>
    match Read r u with
    | none => none
    | some ret =>
      match run ret.r us with
      | none => none
      | some outs => some (ret :: outs)

/-- The receiver as a call of `Read` that panics leaves it. The only write to the
receiver ahead of a panic site is `r.escapeKeyPos = 0` at line 64, ahead of `buf[0:nr]`
at line 65; `buf[0]` and `escapeKeys[escapeKeyPos]` at line 75 and
`escapeKeys[:escapeKeyPos]` at line 62 come before any write. So the cursor is 0 when
`preserve` was called and got past line 62, and unchanged otherwise. -/
def receiverAfterPanic {ε : Type} (r : escapeProxy) (u : ReadResult ε) : escapeProxy :=
  let mismatch : Bool :=
    match u.buf.data.head?, r.escapeKeys.get? r.escapeKeyPos with
    | some b, some k => decide (b ≠ k)
    | _, _ => false
  let callsPreserve : Bool :=
    decide (r.escapeKeys.length ≠ 0) && decide (r.escapeKeyPos > 0) &&
      (decide (u.nr ≠ 1) || u.err.isSome || mismatch)
  if callsPreserve = true ∧ r.escapeKeyPos ≤ r.escapeKeys.length then
    { r with escapeKeyPos := 0 }
  else r

/-- The receiver after the calls of `run`; when a call panics, the receiver as that call
left it (no further call is made). -/
def finalState {ε : Type} (r : escapeProxy) : List (ReadResult ε) → escapeProxy
  | [] => r
  | u :: us =>
    match Read r u with
    | none => receiverAfterPanic r u
    | some ret => finalState ret.r us

/-- The bytes a call hands to its caller: `buf[0:n]` for a returned count `n > 0`,
nothing otherwise. -/
def delivered {ε : Type} (ret : Return ε) : List Byte :=
  if 0 < ret.n then (ret.buf.data ++ ret.buf.spare).take ret.n.toNat else []

/-- The bytes the wrapped reader produced in one read: `buf[0:nr]`. -/
def produced {ε : Type} (u : ReadResult ε) : List Byte :=
  u.buf.data.take u.nr.toNat

/-- An error-free read of exactly one byte, and that byte. -/
def singleByte {ε : Type} (u : ReadResult ε) : Option Byte :=
  if u.nr = 1 ∧ u.err.isNone then u.buf.data.head? else none

/-- A read result of one byte `b` with a `nil` error into a buffer of length
`1 + pad` (the rest zero) and no spare capacity. -/
def oneByte (ε : Type) (b : Byte) (pad : Nat) : ReadResult ε :=
  { buf := { data := b :: List.replicate pad 0, spare := [] }, nr := 1, err := none }


/-- The reads `us` begin with the bytes `ks`, each delivered by one error-free
single-byte read. -/
def startsWithKeys {ε : Type} : List Byte → List (ReadResult ε) → Bool
  | [], _ => true
  | _ :: _, [] => false
  | k :: ks, u :: us => decide (singleByte u = some k) && startsWithKeys ks us

/-- Somewhere in `us` the sequence `S` is delivered as `len(S)` consecutive error-free
single-byte reads. -/
def deliversKeys {ε : Type} (S : List Byte) : List (ReadResult ε) → Bool
  | [] => startsWithKeys S ([] : List (ReadResult ε))
  | u :: us => startsWithKeys S (u :: us) || deliversKeys S us

/-- Every read of `us`, made in turn on the proxy `r`, finds a buffer with
`escapeKeyPos + nr ≤ len(buf)`. -/
def ampleBuffers {ε : Type} (r : escapeProxy) : List (ReadResult ε) → Bool
  | [] => true
  | u :: us =>
    decide ((r.escapeKeyPos : Int) + u.nr ≤ (u.buf.len : Int)) &&
      match Read r u with
      | some ret => ampleBuffers ret.r us
      | none => true

/-- The states of a proxy built by `NewEscapeProxy(r, S)` after any number of calls of
`Read` that returned. -/
inductive Reachable (S : List Byte) : escapeProxy → Prop where
  | fresh (h : Nat) : Reachable S (NewEscapeProxy h S)
  | step {ε : Type} {r : escapeProxy} (u : ReadResult ε) (ret : Return ε) :
      Reachable S r → Read r u = some ret → Reachable S ret.r

theorem toNat_add_cast (n k : Nat) : ((n : Int) + (k : Int)).toNat = n + k := by omega

theorem copyInto_append (buf : Slice) (m : Nat) (src : List Byte) :
    (buf.copyInto m src).data ++ (buf.copyInto m src).spare =
      src.take (min m src.length) ++ (buf.data ++ buf.spare).drop (min m src.length) := by
  simp [Slice.copyInto]

theorem copyInto_len (buf : Slice) (m : Nat) (src : List Byte) (h : m ≤ buf.cap) :
    (buf.copyInto m src).len = buf.len := by
  simp only [Slice.copyInto, Slice.len, Slice.cap] at *
  simp only [List.length_take, List.length_append, List.length_drop]
  omega

theorem copyInto_cap (buf : Slice) (m : Nat) (src : List Byte) (h : m ≤ buf.cap) :
    (buf.copyInto m src).cap = buf.cap := by
  simp only [Slice.copyInto, Slice.len, Slice.cap] at *
  simp only [List.length_take, List.length_append, List.length_drop]
  omega

/-- With `n ≤ len(buf)` and `n + k ≤ cap(buf)`, `preserve` does not panic; it leaves
`escapeKeys[:k]` followed by the first `n` bytes read at the front of the backing array
and touches nothing from position `n + k` on. -/
theorem preserve_spec (r : escapeProxy) (buf : Slice) (n : Nat)
    (hk : r.escapeKeyPos ≤ r.escapeKeys.length) (hn : n ≤ buf.len)
    (hcap : n + r.escapeKeyPos ≤ buf.cap) :
    ∃ buf1, preserve r buf (n : Int) =
        some ({ r with escapeKeyPos := 0 }, buf1, (n : Int) + (r.escapeKeyPos : Int)) ∧
      buf1.len = buf.len ∧ buf1.cap = buf.cap ∧
      (buf1.data ++ buf1.spare).take (n + r.escapeKeyPos) =
        r.escapeKeys.take r.escapeKeyPos ++ buf.data.take n ∧
      (buf1.data ++ buf1.spare).drop (n + r.escapeKeyPos) =
        (buf.data ++ buf.spare).drop (n + r.escapeKeyPos) := by
  have hc : (0 : Int) ≤ (n : Int) + (r.escapeKeyPos : Int) ∧
      (n : Int) + (r.escapeKeyPos : Int) ≤ (buf.cap : Int) := by omega
  refine ⟨buf.copyInto (n + r.escapeKeyPos) (r.escapeKeys.take r.escapeKeyPos ++ buf.data), ?_,
    copyInto_len _ _ _ hcap, copyInto_cap _ _ _ hcap, ?_, ?_⟩
  · simp only [preserve, hk, hc, if_true, and_self, toNat_add_cast]
  · have hlen : (r.escapeKeys.take r.escapeKeyPos ++ buf.data).length =
        r.escapeKeyPos + buf.data.length := by
      simp [List.length_take, hk]
    have hmin : min (n + r.escapeKeyPos) (r.escapeKeys.take r.escapeKeyPos ++ buf.data).length =
        n + r.escapeKeyPos := by
      rw [hlen]; simp only [Slice.len] at hn; omega
    rw [copyInto_append, hmin]
    have hl2 : ((r.escapeKeys.take r.escapeKeyPos ++ buf.data).take (n + r.escapeKeyPos)).length =
        n + r.escapeKeyPos := by
      rw [List.length_take, hlen]; simp only [Slice.len] at hn; omega
    rw [List.take_append_of_le_length (by omega), List.take_take, Nat.min_self]
    rw [List.take_append_eq_append_take]
    have h1 : (List.take r.escapeKeyPos r.escapeKeys).length = r.escapeKeyPos := by
      simp [List.length_take, hk]
    rw [h1, List.take_take]
    have h2 : min (n + r.escapeKeyPos) r.escapeKeyPos = r.escapeKeyPos := by omega
    have h3 : n + r.escapeKeyPos - r.escapeKeyPos = n := by omega
    rw [h2, h3]
  · have hlen : (r.escapeKeys.take r.escapeKeyPos ++ buf.data).length =
        r.escapeKeyPos + buf.data.length := by
      simp [List.length_take, hk]
    have hmin : min (n + r.escapeKeyPos) (r.escapeKeys.take r.escapeKeyPos ++ buf.data).length =
        n + r.escapeKeyPos := by
      rw [hlen]; simp only [Slice.len] at hn; omega
    rw [copyInto_append, hmin]
    have hl2 : ((r.escapeKeys.take r.escapeKeyPos ++ buf.data).take (n + r.escapeKeyPos)).length =
        n + r.escapeKeyPos := by
      rw [List.length_take, hlen]; simp only [Slice.len] at hn; omega
    rw [List.drop_append_of_le_length (by omega), List.drop_of_length_le (by omega),
      List.nil_append]


/-- With `n ≤ len(buf)` and `n + k ≤ cap(buf)`, the flush block returns `n + k` and
the error it was given, with `escapeKeys[:k]` followed by the `n` bytes read at the
front of the buffer, and the cursor at zero. -/
theorem flush_spec {ε : Type} (r : escapeProxy) (buf : Slice) (n : Nat) (err : Option (Error ε))
    (hk : r.escapeKeyPos ≤ r.escapeKeys.length) (hn : n ≤ buf.len)
    (hcap : n + r.escapeKeyPos ≤ buf.cap) :
    ∃ ret, flush r buf (n : Int) err = some ret ∧
      ret.r = { r with escapeKeyPos := 0 } ∧
      ret.n = (n : Int) + (r.escapeKeyPos : Int) ∧ ret.err = err ∧
      ret.buf.len = buf.len ∧ ret.buf.cap = buf.cap ∧
      (ret.buf.data ++ ret.buf.spare).take (n + r.escapeKeyPos) =
        r.escapeKeys.take r.escapeKeyPos ++ buf.data.take n ∧
      (ret.buf.data ++ ret.buf.spare).drop (n + r.escapeKeyPos) =
        (buf.data ++ buf.spare).drop (n + r.escapeKeyPos) := by
  by_cases hpos : r.escapeKeyPos > 0
  · obtain ⟨buf1, h1, h2, h3, h4, h5⟩ := preserve_spec r buf n hk hn hcap
    refine ⟨{ r := { r with escapeKeyPos := 0 }, buf := buf1,
              n := (n : Int) + (r.escapeKeyPos : Int), err := err }, ?_, rfl, rfl, rfl,
            h2, h3, h4, h5⟩
    simp only [flush, hpos, if_true, h1]
  · have h0 : r.escapeKeyPos = 0 := by omega
    refine ⟨{ r := r, buf := buf, n := (n : Int), err := err }, ?_, ?_, ?_, rfl, rfl, rfl, ?_, ?_⟩
    · simp only [flush, hpos, if_false]
    · cases r; simp_all
    · simp [h0]
    · simp only [h0, Nat.add_zero, List.take_zero, List.nil_append]
      exact List.take_append_of_le_length hn
    · simp [h0]

/-- The bytes handed to the caller by a flush are the withheld keys followed by the
bytes read. -/
theorem delivered_of_flush {ε : Type} (ret : Return ε) (n k : Nat) (l : List Byte)
    (hn : ret.n = (n : Int) + (k : Int))
    (ht : (ret.buf.data ++ ret.buf.spare).take (n + k) = l) (hl : n + k = 0 → l = []) :
    delivered ret = l := by
  unfold delivered
  by_cases h : 0 < ret.n
  · rw [if_pos h, hn, toNat_add_cast, ht]
  · rw [if_neg h]
    exact (hl (by omega)).symm

theorem Read_of_flush {ε : Type} (r : escapeProxy) (u : ReadResult ε)
    (hS : r.escapeKeys ≠ []) (h : u.nr ≠ 1 ∨ u.err.isSome) :
    Read r u = flush r u.buf u.nr u.err := by
  have h0 : ¬ r.escapeKeys.length = 0 := by
    intro hl; exact hS (List.length_eq_zero.mp hl)
  simp only [Read, h0, if_false, h, if_true]

theorem Read_of_single {ε : Type} (r : escapeProxy) (u : ReadResult ε) (b k : Byte)
    (hS : r.escapeKeys ≠ []) (hnr : u.nr = 1) (herr : u.err = none)
    (hb : u.buf.data.head? = some b) (hkey : r.escapeKeys.get? r.escapeKeyPos = some k) :
    Read r u =
      if b ≠ k then flush r u.buf u.nr none
      else if r.escapeKeyPos = r.escapeKeys.length - 1 then
        some { r := r, buf := u.buf, n := 0, err := some Error.EscapeError }
      else
        some { r := { r with escapeKeyPos := r.escapeKeyPos + 1 }, buf := u.buf,
               n := u.nr - ((r.escapeKeyPos + 1 : Nat) : Int), err := none } := by
  have h0 : ¬ r.escapeKeys.length = 0 := by
    intro hl; exact hS (List.length_eq_zero.mp hl)
  have h1 : ¬ (u.nr ≠ 1 ∨ u.err.isSome = true) := by
    simp [hnr, herr]
  simp only [Read, h0, if_false, h1, hb, hkey]

theorem delivered_of_nonpos {ε : Type} (ret : Return ε) (h : ret.n ≤ 0) : delivered ret = [] := by
  unfold delivered
  rw [if_neg (by omega)]

theorem take_data_of_le (buf : Slice) (m : Nat) (h : m ≤ buf.len) :
    buf.data.take m = (buf.data ++ buf.spare).take m :=
  (List.take_append_of_le_length h).symm

theorem len_le_cap (buf : Slice) : buf.len ≤ buf.cap := by
  simp [Slice.len, Slice.cap]

theorem singleByte_eq_some {ε : Type} {u : ReadResult ε} {b : Byte} (h : singleByte u = some b) :
    u.nr = 1 ∧ u.err = none ∧ u.buf.data.head? = some b := by
  unfold singleByte at h
  by_cases hc : u.nr = 1 ∧ u.err.isNone
  · rw [if_pos hc] at h
    exact ⟨hc.1, Option.isNone_iff_eq_none.mp hc.2, h⟩
  · rw [if_neg hc] at h
    exact absurd h (by simp)

theorem one_le_len_of_head {buf : Slice} {b : Byte} (h : buf.data.head? = some b) :
    1 ≤ buf.len := by
  unfold Slice.len
  cases hd : buf.data with
  | nil => simp [hd] at h
  | cons a t => simp

theorem flush_of_cursor_zero {ε : Type} (r : escapeProxy) (buf : Slice) (nr : Int)
    (err : Option (Error ε)) (h : r.escapeKeyPos = 0) :
    flush r buf nr err = some { r := r, buf := buf, n := nr, err := err } := by
  unfold flush
  rw [if_neg (by omega)]

/-! ## C1: transparency -/

theorem startsWithKeys_of_not_delivers {ε : Type} (S : List Byte) (us : List (ReadResult ε))
    (h : deliversKeys S us = false) : startsWithKeys S us = false := by
  cases us with
  | nil => simpa [deliversKeys] using h
  | cons u us =>
    simp only [deliversKeys, Bool.or_eq_false_iff] at h
    exact h.1

theorem deliversKeys_tail {ε : Type} (S : List Byte) (u : ReadResult ε) (us : List (ReadResult ε))
    (h : deliversKeys S (u :: us) = false) : deliversKeys S us = false := by
  simp only [deliversKeys, Bool.or_eq_false_iff] at h
  exact h.2

theorem singleByte_of {ε : Type} (u : ReadResult ε) (b : Byte) (hnr : u.nr = 1)
    (herr : u.err = none) (hb : u.buf.data.head? = some b) : singleByte u = some b := by
  simp [singleByte, hnr, herr, hb]

theorem take_one_of_head {b : Byte} {l : List Byte} (h : l.head? = some b) : l.take 1 = [b] := by
  cases l with
  | nil => simp at h
  | cons a t => simp at h; simp [h]

theorem take_succ_of_get {k : Byte} {S : List Byte} {i : Nat} (h : S.get? i = some k) :
    S.take (i + 1) = S.take i ++ [k] := by
  rw [List.take_succ]
  simp only [List.get?_eq_getElem?] at h
  simp [h]

theorem drop_of_get {k : Byte} {S : List Byte} {i : Nat} (h : S.get? i = some k) :
    S.drop i = k :: S.drop (i + 1) := by
  simp only [List.get?_eq_getElem?] at h
  obtain ⟨hi, hk⟩ := List.getElem?_eq_some_iff.mp h
  rw [List.drop_eq_getElem_cons hi, hk]

/-- One call of `Read` away from a completed match: it does not panic, returns the error
of the wrapped read, and the bytes delivered so far plus the withheld prefix grow by
exactly the bytes the wrapped reader produced. -/
theorem transparent_step {ε : Type} (r : escapeProxy) (u : ReadResult ε)
    (us : List (ReadResult ε)) (hS : r.escapeKeys ≠ [])
    (hk : r.escapeKeyPos < r.escapeKeys.length) (hnn : 0 ≤ u.nr)
    (hle : (r.escapeKeyPos : Int) + u.nr ≤ (u.buf.len : Int))
    (hstart : startsWithKeys (r.escapeKeys.drop r.escapeKeyPos) (u :: us) = false)
    (hdel : startsWithKeys r.escapeKeys us = false) :
    ∃ ret, Read r u = some ret ∧ ret.err = u.err ∧
      ret.r.escapeKeys = r.escapeKeys ∧ ret.r.escapeKeyPos < r.escapeKeys.length ∧
      delivered ret ++ r.escapeKeys.take ret.r.escapeKeyPos =
        r.escapeKeys.take r.escapeKeyPos ++ produced u ∧
      startsWithKeys (r.escapeKeys.drop ret.r.escapeKeyPos) us = false := by
  obtain ⟨n, hn⟩ := Int.eq_ofNat_of_zero_le hnn
  have hnlen : n ≤ u.buf.len := by omega
  have hcap : n + r.escapeKeyPos ≤ u.buf.cap := by
    have : u.buf.len ≤ u.buf.cap := by simp [Slice.len, Slice.cap]
    omega
  have hprod : produced u = u.buf.data.take n := by simp [produced, hn]
  have hflush : ∀ err : Option (Error ε), err = u.err →
      Read r u = flush r u.buf u.nr err →
      ∃ ret, Read r u = some ret ∧ ret.err = u.err ∧
        ret.r.escapeKeys = r.escapeKeys ∧ ret.r.escapeKeyPos < r.escapeKeys.length ∧
        delivered ret ++ r.escapeKeys.take ret.r.escapeKeyPos =
          r.escapeKeys.take r.escapeKeyPos ++ produced u ∧
        startsWithKeys (r.escapeKeys.drop ret.r.escapeKeyPos) us = false := by
    intro err herr hread
    obtain ⟨ret, h1, h2, h3, h4, _, _, h7, _⟩ :=
      flush_spec r u.buf n err (Nat.le_of_lt hk) hnlen hcap
    refine ⟨ret, ?_, ?_, ?_, ?_, ?_, ?_⟩
    · rw [hread, hn, h1]
    · rw [h4]; exact herr
    · rw [h2]
    · rw [h2]; exact Nat.lt_of_le_of_lt (Nat.zero_le _) hk
    · rw [h2, hprod]
      simp only [List.take_zero, List.append_nil]
      apply delivered_of_flush ret n r.escapeKeyPos _ h3 h7
      intro h0
      have hn0 : n = 0 := by omega
      have hk0 : r.escapeKeyPos = 0 := by omega
      simp [hn0, hk0]
    · rw [h2]
      simpa using hdel
  by_cases hf : u.nr ≠ 1 ∨ u.err.isSome
  · exact hflush u.err rfl (Read_of_flush r u hS hf)
  · have hnr : u.nr = 1 := by
      by_contra hc; exact hf (Or.inl hc)
    have herr : u.err = none := by
      cases he : u.err with
      | none => rfl
      | some e => exact absurd (Or.inr (by simp [he])) hf
    have hlen1 : 1 ≤ u.buf.data.length := by
      simp only [Slice.len] at hnlen; omega
    obtain ⟨b, hb⟩ : ∃ b, u.buf.data.head? = some b := by
      cases hd : u.buf.data with
      | nil => simp [hd] at hlen1
      | cons a t => exact ⟨a, rfl⟩
    obtain ⟨k, hkey⟩ : ∃ k, r.escapeKeys.get? r.escapeKeyPos = some k :=
      ⟨r.escapeKeys.get ⟨r.escapeKeyPos, hk⟩, List.get?_eq_get hk⟩
    have hread := Read_of_single r u b k hS hnr herr hb hkey
    by_cases hbk : b ≠ k
    · rw [if_pos hbk] at hread
      exact hflush none herr.symm hread
    · rw [if_neg hbk] at hread
      have hbk2 : b = k := by
        by_contra hc; exact hbk hc
      subst hbk2
      have hsb := singleByte_of u b hnr herr hb
      rw [drop_of_get hkey] at hstart
      simp only [startsWithKeys, hsb, decide_True, Bool.true_and] at hstart
      by_cases hlast : r.escapeKeyPos = r.escapeKeys.length - 1
      · exfalso
        have hnil : r.escapeKeys.drop (r.escapeKeyPos + 1) = [] :=
          List.drop_of_length_le (by omega)
        rw [hnil] at hstart
        simp [startsWithKeys] at hstart
      · rw [if_neg hlast] at hread
        refine ⟨_, hread, herr.symm, rfl, ?_, ?_, hstart⟩
        · show r.escapeKeyPos + 1 < r.escapeKeys.length
          omega
        · rw [delivered_of_nonpos _ (by show u.nr - ((r.escapeKeyPos + 1 : Nat) : Int) ≤ 0; omega),
            hprod]
          have hn1 : n = 1 := by omega
          rw [hn1, take_one_of_head hb]
          simpa using take_succ_of_get hkey

theorem transparent_from {ε : Type} (S : List Byte) (hS : S ≠ []) (us : List (ReadResult ε)) :
    ∀ r : escapeProxy, r.escapeKeys = S → r.escapeKeyPos < S.length →
      (∀ u ∈ us, 0 ≤ u.nr) → ampleBuffers r us = true →
      startsWithKeys (S.drop r.escapeKeyPos) us = false → deliversKeys S us = false →
      ∃ outs, run r us = some outs ∧
        outs.map (fun o => o.err) = us.map (fun u => u.err) ∧
        (outs.map delivered).flatten ++ S.take (finalState r us).escapeKeyPos =
          S.take r.escapeKeyPos ++ (us.map produced).flatten := by
  induction us with
  | nil =>
    intro r _ _ _ _ _ _
    exact ⟨[], rfl, rfl, by simp [finalState]⟩
  | cons u us ih =>
    intro r hr hk hnn hamp hstart hdel
    subst hr
    simp only [ampleBuffers, Bool.and_eq_true, decide_eq_true_eq] at hamp
    obtain ⟨ret, h1, h2, h3, h4, h5, h6⟩ :=
      transparent_step r u us hS hk (hnn u (List.mem_cons_self _ _)) hamp.1 hstart
        (startsWithKeys_of_not_delivers _ _ (deliversKeys_tail _ _ _ hdel))
    have hamp2 := hamp.2
    rw [h1] at hamp2
    obtain ⟨outs, g1, g2, g3⟩ := ih ret.r h3 h4
      (fun v hv => hnn v (List.mem_cons_of_mem _ hv)) hamp2 h6 (deliversKeys_tail _ _ _ hdel)
    refine ⟨ret :: outs, ?_, ?_, ?_⟩
    · simp only [run, h1, g1]
    · simp only [List.map_cons, h2, g2]
    · simp only [finalState, h1, List.map_cons, List.flatten_cons, List.append_assoc]
      rw [g3, ← List.append_assoc, h5, List.append_assoc]

/-- C1 as stated fails: with `S = B` and a wrapped reader that itself returns
`(0, EscapeError{})` (as a nested proxy does), the read sequence never delivers `S`, the
buffer is ample, and yet the call returns `EscapeError`, handed on from the wrapped
reader. -/
theorem C1_wrapped_EscapeError_is_returned :
    deliversKeys [66]
      [({ buf := { data := [0], spare := [] }, nr := 0, err := some Error.EscapeError } :
        ReadResult Unit)] = false ∧
    ampleBuffers (NewEscapeProxy 0 [66])
      [({ buf := { data := [0], spare := [] }, nr := 0, err := some Error.EscapeError } :
        ReadResult Unit)] = true ∧
    (run (NewEscapeProxy 0 [66])
      [({ buf := { data := [0], spare := [] }, nr := 0, err := some Error.EscapeError } :
        ReadResult Unit)]).map (List.map fun o => o.err) = some [some Error.EscapeError] :=
  ⟨by decide, by decide, by decide⟩

/-- C1 amended (transparency). For a non-empty escape sequence `S` and reads `us` fed to
a fresh proxy, with counts `nr ≥ 0` and buffers with `escapeKeyPos + nr ≤ len(buf)` at
every call: if `us` never delivers `S` as `len(S)` consecutive error-free single-byte
reads, then no call panics, every call returns the error of its wrapped read unchanged
(so no call returns `EscapeError` unless the wrapped reader returned it, and none at all
when the wrapped reader never does), and the bytes delivered to the caller followed by
the withheld prefix `S[0:escapeKeyPos]` are the bytes the source produced. -/
theorem C1_transparency {ε : Type} (h : Nat) (S : List Byte) (us : List (ReadResult ε))
    (hS : S ≠ []) (hnn : ∀ u ∈ us, 0 ≤ u.nr)
    (hamp : ampleBuffers (NewEscapeProxy h S) us = true)
    (hdel : deliversKeys S us = false) :
    ∃ outs, run (NewEscapeProxy h S) us = some outs ∧
      outs.map (fun o => o.err) = us.map (fun u => u.err) ∧
      ((∀ u ∈ us, u.err ≠ some Error.EscapeError) →
        ∀ o ∈ outs, o.err ≠ some Error.EscapeError) ∧
      (outs.map delivered).flatten ++ S.take (finalState (NewEscapeProxy h S) us).escapeKeyPos =
        (us.map produced).flatten := by
  have hlen : 0 < S.length := List.length_pos.mpr hS
  obtain ⟨outs, h1, h2, h3⟩ := transparent_from S hS us (NewEscapeProxy h S) rfl hlen hnn hamp
    (by simpa [NewEscapeProxy] using startsWithKeys_of_not_delivers S us hdel) hdel
  refine ⟨outs, h1, h2, ?_, by simpa [NewEscapeProxy] using h3⟩
  intro hsrc o ho
  have hmem : o.err ∈ outs.map (fun o => o.err) := List.mem_map_of_mem _ ho
  rw [h2] at hmem
  obtain ⟨u, hu, hue⟩ := List.mem_map.mp hmem
  rw [← hue]
  exact hsrc u hu

/-- C1 amended, at `S = AB` with the single-byte reads `A`, `X`, `B` into buffers of
length 2. -/
theorem C1_transparency_witness :
    deliversKeys [65, 66] [oneByte Unit 65 1, oneByte Unit 88 1, oneByte Unit 66 1] = false ∧
    ∃ outs, run (NewEscapeProxy 0 [65, 66])
        [oneByte Unit 65 1, oneByte Unit 88 1, oneByte Unit 66 1] = some outs ∧
      outs.map (fun o => o.err) =
        [oneByte Unit 65 1, oneByte Unit 88 1, oneByte Unit 66 1].map (fun u => u.err) ∧
      ((∀ u ∈ [oneByte Unit 65 1, oneByte Unit 88 1, oneByte Unit 66 1],
          u.err ≠ some Error.EscapeError) →
        ∀ o ∈ outs, o.err ≠ some Error.EscapeError) ∧
      (outs.map delivered).flatten ++ List.take (finalState (NewEscapeProxy 0 [65, 66])
        [oneByte Unit 65 1, oneByte Unit 88 1, oneByte Unit 66 1]).escapeKeyPos [65, 66] =
        ([oneByte Unit 65 1, oneByte Unit 88 1, oneByte Unit 66 1].map produced).flatten :=
  ⟨by decide, C1_transparency 0 [65, 66] [oneByte Unit 65 1, oneByte Unit 88 1, oneByte Unit 66 1]
    (by decide) (by decide) (by decide) (by decide)⟩

/-! ## C2: the escape sequence delivered one byte per read -/

/-- C2 at `S = ABC` with the single-byte reads `A`, `B`, `C`: the three calls return
`(0, nil)`, `(-1, nil)` and `(0, EscapeError)`; the second count is `1 - escapeKeyPos`
after the increment, which is negative, not zero. -/
theorem C2_three_keys_negative_count :
    (run (NewEscapeProxy 0 [65, 66, 67])
        [oneByte Unit 65 0, oneByte Unit 66 0, oneByte Unit 67 0]).map
      (List.map fun o => (o.n, o.err)) =
      some [(0, none), (-1, none), (0, some Error.EscapeError)] := by
  decide

/-! ## C3: the final byte of the escape sequence -/

/-- The final-byte step in general: from `escapeKeyPos = len(S) - 1`, an error-free
single-byte read of `S[len(S)-1]` returns `(0, EscapeError)` and leaves the receiver and
the buffer as they were, so `escapeKeyPos` is still `len(S) - 1`. -/
theorem Read_final_byte {ε : Type} (r : escapeProxy) (u : ReadResult ε) (k : Byte)
    (hS : r.escapeKeys ≠ []) (hpos : r.escapeKeyPos = r.escapeKeys.length - 1)
    (hnr : u.nr = 1) (herr : u.err = none) (hb : u.buf.data.head? = some k)
    (hkey : r.escapeKeys.get? r.escapeKeyPos = some k) :
    Read r u = some { r := r, buf := u.buf, n := 0, err := some Error.EscapeError } := by
  rw [Read_of_single r u k k hS hnr herr hb hkey, if_neg (by simp), if_pos hpos]

/-- C3 at `S = AB`, `escapeKeyPos = 1`, an error-free single-byte read of `B`: `Read`
returns `(0, EscapeError)` and `escapeKeyPos` is still 1 afterwards, not 0. -/
theorem C3_final_byte_cursor_not_reset :
    (Read { escapeKeys := [65, 66], escapeKeyPos := 1, r := 0 } (oneByte Unit 66 0)).map
      (fun ret => (ret.n, ret.err, ret.r.escapeKeyPos)) =
      some (0, some Error.EscapeError, 1) := by
  decide

/-! ## C4: reads after a detection -/

/-- C4 at `S = AB`: after the single-byte reads `A`, `B` (the second returning
`EscapeError`), a read of `X` into a buffer of length 2 returns count 2 and delivers `AX`,
and a read of a lone `B` returns `EscapeError` again, while a fresh proxy returns count 1
and delivers `X`, and returns `(1, nil)` delivering `B`. -/
theorem C4_after_detection_differs_from_fresh :
    (run (NewEscapeProxy 0 [65, 66]) [oneByte Unit 65 0, oneByte Unit 66 0, oneByte Unit 88 1]).map
        (List.map fun o => (o.n, delivered o, o.err)) =
      some [(0, [], none), (0, [], some Error.EscapeError), (2, [65, 88], none)] ∧
    (run (NewEscapeProxy 0 [65, 66]) [oneByte Unit 88 1]).map
        (List.map fun o => (o.n, delivered o, o.err)) =
      some [(1, [88], none)] ∧
    (run (NewEscapeProxy 0 [65, 66]) [oneByte Unit 65 0, oneByte Unit 66 0, oneByte Unit 66 0]).map
        (List.map fun o => (o.n, delivered o, o.err)) =
      some [(0, [], none), (0, [], some Error.EscapeError), (0, [], some Error.EscapeError)] ∧
    (run (NewEscapeProxy 0 [65, 66]) [oneByte Unit 66 0]).map
        (List.map fun o => (o.n, delivered o, o.err)) =
      some [(1, [66], none)] :=
  ⟨by decide, by decide, by decide, by decide⟩

/-! ## C5: flush on error or end-of-stream -/

/-- C5 (flush on error). For a non-empty escape sequence, a state with `k = escapeKeyPos`
withheld bytes (`k ≤ len(S)`), and a read of the wrapped reader returning `n` bytes and a
non-nil error `e`, with `n + k ≤ len(buf)`: `Read` returns `(n + k, e)`, the first
`n + k` bytes of the buffer are `S[0:k]` followed by the `n` bytes read, and
`escapeKeyPos` is 0 afterwards. -/
theorem C5_flush_on_error {ε : Type} (r : escapeProxy) (u : ReadResult ε) (n : Nat)
    (e : Error ε)
    (hS : r.escapeKeys ≠ []) (hk : r.escapeKeyPos ≤ r.escapeKeys.length)
    (hn : u.nr = (n : Int)) (herr : u.err = some e)
    (hle : n + r.escapeKeyPos ≤ u.buf.len) :
    ∃ ret, Read r u = some ret ∧
      ret.n = (n : Int) + (r.escapeKeyPos : Int) ∧ ret.err = some e ∧
      ret.buf.len = u.buf.len ∧
      ret.buf.data.take (n + r.escapeKeyPos) =
        r.escapeKeys.take r.escapeKeyPos ++ u.buf.data.take n ∧
      ret.r.escapeKeyPos = 0 ∧ ret.r.escapeKeys = r.escapeKeys := by
  have hcap : n + r.escapeKeyPos ≤ u.buf.cap := Nat.le_trans hle (len_le_cap _)
  obtain ⟨ret, h1, h2, h3, h4, h5, _, h7, _⟩ :=
    flush_spec r u.buf n (some e) hk (by omega) hcap
  refine ⟨ret, ?_, h3, h4, h5, ?_, ?_, ?_⟩
  · rw [Read_of_flush r u hS (Or.inr (by simp [herr])), hn, herr]
    exact h1
  · rw [take_data_of_le _ _ (by omega), h7]
  · rw [h2]
  · rw [h2]

/-- C5 at `S = AB` with `A` withheld and an end-of-stream read of zero bytes. -/
theorem C5_flush_on_error_witness :
    ∃ ret, Read { escapeKeys := [65, 66], escapeKeyPos := 1, r := 0 }
        ({ buf := { data := [0, 0], spare := [] }, nr := 0, err := some (Error.src ()) } :
          ReadResult Unit) = some ret ∧
      ret.n = ((0 : Nat) : Int) + ((1 : Nat) : Int) ∧ ret.err = some (Error.src ()) ∧
      ret.buf.len = 2 ∧
      ret.buf.data.take (0 + 1) = List.take 1 [65, 66] ++ List.take 0 [0, 0] ∧
      ret.r.escapeKeyPos = 0 ∧ ret.r.escapeKeys = [65, 66] :=
  C5_flush_on_error { escapeKeys := [65, 66], escapeKeyPos := 1, r := 0 }
    { buf := { data := [0, 0], spare := [] }, nr := 0, err := some (Error.src ()) } 0
    (Error.src ())
    (by decide) (by decide) (by decide) (by decide) (by decide)

/-! ## C6: empty escape sequence -/

/-- The result of `Read` when it hands the wrapped reader's result through. -/
theorem Read_of_no_keys {ε : Type} (r : escapeProxy) (u : ReadResult ε)
    (hS : r.escapeKeys = []) :
    Read r u = some { r := r, buf := u.buf, n := u.nr, err := u.err } := by
  simp [Read, hS]

/-- C6 (disabled detection). With an empty escape sequence, every call of `Read` returns
the count and error of the wrapped reader, leaves the buffer as the wrapped reader left
it and the receiver unchanged (so `escapeKeyPos` stays 0 on a proxy from
`NewEscapeProxy`); hence a sequence of reads through the proxy returns, call by call,
what the wrapped reader returned, and never panics. -/
theorem C6_empty_keys_passthrough {ε : Type} (r : escapeProxy) (hS : r.escapeKeys = []) :
    (∀ u : ReadResult ε,
      Read r u = some { r := r, buf := u.buf, n := u.nr, err := u.err }) ∧
    (∀ us : List (ReadResult ε),
      run r us = some (us.map fun u =>
        { r := r, buf := u.buf, n := u.nr, err := u.err }) ∧
      finalState r us = r) := by
  refine ⟨fun u => Read_of_no_keys r u hS, fun us => ?_⟩
  induction us with
  | nil => exact ⟨rfl, rfl⟩
  | cons u us ih =>
    constructor
    · simp only [run, Read_of_no_keys r u hS, ih.1, List.map_cons]
    · simp only [finalState, Read_of_no_keys r u hS, ih.2]

/-- C6 on a fresh proxy with no escape keys: `escapeKeyPos` is 0 and stays 0. -/
theorem C6_empty_keys_passthrough_witness :
    (NewEscapeProxy 0 []).escapeKeyPos = 0 ∧
    (∀ u : ReadResult Unit,
      Read (NewEscapeProxy 0 []) u =
        some { r := NewEscapeProxy 0 [], buf := u.buf, n := u.nr,
               err := u.err }) ∧
    (∀ us : List (ReadResult Unit),
      run (NewEscapeProxy 0 []) us = some (us.map fun u =>
        { r := NewEscapeProxy 0 [], buf := u.buf, n := u.nr, err := u.err }) ∧
      finalState (NewEscapeProxy 0 []) us = NewEscapeProxy 0 []) :=
  ⟨rfl, C6_empty_keys_passthrough (NewEscapeProxy 0 []) rfl⟩

/-! ## C7: the input `AAB` against the escape sequence `AB` -/

/-- C7 as stated fails: with `S = AB` and the single-byte reads `A`, `A`, `B` into buffers
of length 2, the bytes delivered over the three calls are not `AA`. -/
theorem C7_delivered_is_not_AA :
    (run (NewEscapeProxy 0 [65, 66]) [oneByte Unit 65 1, oneByte Unit 65 1, oneByte Unit 66 1]).map
      (fun outs => (outs.map delivered).flatten) ≠ some [65, 65] := by
  decide

/-- C7 amended. With `S = AB` and three error-free single-byte reads `A`, `A`, `B` on a
fresh proxy, the second into a buffer with capacity for two bytes: no call panics, every
call returns a nil error, the first delivers nothing, the second delivers `AA`, the third
delivers `B`; concatenated, the delivered bytes are `AAB`. -/
theorem C7_delivered_is_AAB {ε : Type} (h : Nat) (u1 u2 u3 : ReadResult ε)
    (h1 : singleByte u1 = some 65) (h2 : singleByte u2 = some 65)
    (h3 : singleByte u3 = some 66) (hcap : 2 ≤ u2.buf.cap) :
    ∃ o1 o2 o3, run (NewEscapeProxy h [65, 66]) [u1, u2, u3] = some [o1, o2, o3] ∧
      o1.err = none ∧ o2.err = none ∧ o3.err = none ∧
      delivered o1 = [] ∧ delivered o2 = [65, 65] ∧ delivered o3 = [66] ∧
      ([o1, o2, o3].map delivered).flatten = [65, 65, 66] := by
  obtain ⟨n1, e1, b1⟩ := singleByte_eq_some h1
  obtain ⟨n2, e2, b2⟩ := singleByte_eq_some h2
  obtain ⟨n3, e3, b3⟩ := singleByte_eq_some h3
  -- first call: `A` starts a match and is withheld
  have r1 := Read_of_single (NewEscapeProxy h [65, 66]) u1 65 65 (by simp [NewEscapeProxy])
    n1 e1 b1 (by simp [NewEscapeProxy])
  rw [if_neg (by simp), if_neg (by simp [NewEscapeProxy])] at r1
  -- second call: `A` is not `B`, the withheld `A` is put back
  have r2 := Read_of_single ({ escapeKeys := [65, 66], escapeKeyPos := 1, r := h } : escapeProxy)
    u2 65 66 (by simp) n2 e2 b2 (by simp)
  rw [if_pos (by decide), n2] at r2
  obtain ⟨o2, f1, f2, f3, f4, _, _, f7, _⟩ :=
    flush_spec ({ escapeKeys := [65, 66], escapeKeyPos := 1, r := h } : escapeProxy)
      u2.buf 1 (none : Option (Error ε)) (by simp) (one_le_len_of_head b2) hcap
  -- third call: `B` is not `A`, it is handed through
  have r3 := Read_of_single ({ escapeKeys := [65, 66], escapeKeyPos := 0, r := h } : escapeProxy)
    u3 66 65 (by simp) n3 e3 b3 (by simp)
  rw [if_pos (by decide), n3] at r3
  obtain ⟨o3, g1, g2, g3, g4, _, _, g7, _⟩ :=
    flush_spec ({ escapeKeys := [65, 66], escapeKeyPos := 0, r := h } : escapeProxy)
      u3.buf 1 (none : Option (Error ε)) (by simp) (one_le_len_of_head b3)
      (Nat.le_trans (one_le_len_of_head b3) (len_le_cap _))
  have d1 : delivered ({ r := { escapeKeys := [65, 66], escapeKeyPos := 1, r := h },
                         buf := u1.buf, n := u1.nr - ((0 + 1 : Nat) : Int),
                         err := none } : Return ε) = [] :=
    delivered_of_nonpos _ (by show u1.nr - ((0 + 1 : Nat) : Int) ≤ 0; omega)
  have d2 : delivered o2 = [65, 65] := by
    apply delivered_of_flush o2 1 1 _ f3
    · rw [f7, take_one_of_head b2]; rfl
    · omega
  have d3 : delivered o3 = [66] := by
    apply delivered_of_flush o3 1 0 _ g3
    · rw [g7, take_one_of_head b3]; rfl
    · omega
  have R1 : Read (NewEscapeProxy h [65, 66]) u1 =
      some { r := { escapeKeys := [65, 66], escapeKeyPos := 1, r := h },
             buf := u1.buf, n := u1.nr - ((0 + 1 : Nat) : Int), err := none } := r1
  have R2 : Read ({ escapeKeys := [65, 66], escapeKeyPos := 1, r := h } : escapeProxy) u2 =
      some o2 := r2.trans f1
  have R3 : Read o2.r u3 = some o3 := by
    rw [f2]; exact r3.trans g1
  refine ⟨_, o2, o3, ?_, rfl, f4, g4, d1, d2, d3, ?_⟩
  · simp only [run, R1, R2, R3]
  · simp only [List.map_cons, List.map_nil, List.flatten_cons, List.flatten_nil, d1, d2, d3]
    rfl

/-- C7 amended, at buffers of length 2. -/
theorem C7_delivered_is_AAB_witness :
    singleByte (oneByte Unit 65 1) = some 65 ∧ singleByte (oneByte Unit 66 1) = some 66 ∧
    ∃ o1 o2 o3, run (NewEscapeProxy 0 [65, 66])
        [oneByte Unit 65 1, oneByte Unit 65 1, oneByte Unit 66 1] = some [o1, o2, o3] ∧
      o1.err = none ∧ o2.err = none ∧ o3.err = none ∧
      delivered o1 = [] ∧ delivered o2 = [65, 65] ∧ delivered o3 = [66] ∧
      ([o1, o2, o3].map delivered).flatten = [65, 65, 66] :=
  ⟨by decide, by decide,
    C7_delivered_is_AAB 0 (oneByte Unit 65 1) (oneByte Unit 65 1) (oneByte Unit 66 1)
      (by decide) (by decide) (by decide) (by decide)⟩

/-! ## C8: the returned count as a read count -/

/-- C8 at two reachable states. With `S = ABC`, after the single-byte read `A`, a
single-byte read `B` into a buffer of length 1 returns the count `-1`. With `S = AB`,
after the single-byte read `A`, a single-byte read `X` into a buffer of length 1 returns
the count 2 when the buffer has spare capacity, and panics when it has none. -/
theorem C8_count_negative_or_beyond_len :
    (Read (finalState (NewEscapeProxy 0 [65, 66, 67]) [oneByte Unit 65 0])
        (oneByte Unit 66 0)).map (fun ret => (ret.n, ret.buf.len)) = some (-1, 1) ∧
    (Read (finalState (NewEscapeProxy 0 [65, 66]) [oneByte Unit 65 0])
        ({ buf := { data := [88], spare := [0] }, nr := 1, err := none } : ReadResult Unit)).map
      (fun ret => (ret.n, ret.buf.len)) = some (2, 1) ∧
    Read (finalState (NewEscapeProxy 0 [65, 66]) [oneByte Unit 65 0]) (oneByte Unit 88 0) = none :=
  ⟨by decide, by decide, by decide⟩

/-! ## C9: determinism -/

/-- C10 (mismatch step). For a non-empty escape sequence, a state with
`k = escapeKeyPos < len(S)` and an error-free single-byte read of `b ≠ S[k]` with
`k + 1 ≤ len(buf)`: `Read` returns `(k + 1, nil)`, the first `k + 1` bytes of the buffer
are `S[0:k]` followed by `b`, and `escapeKeyPos` becomes 0, whether or not `b = S[0]`.
With `S = AB` and the single-byte reads `A`, `A`, `B` the second call delivers `AA`, the
third delivers `B` with a nil error, and no call returns `EscapeError`. -/
theorem C10_mismatch_step {ε : Type} (r : escapeProxy) (u : ReadResult ε) (b s : Byte)
    (hS : r.escapeKeys ≠ []) (hkey : r.escapeKeys.get? r.escapeKeyPos = some s)
    (hnr : u.nr = 1) (herr : u.err = none) (hb : u.buf.data.head? = some b)
    (hne : b ≠ s) (hle : r.escapeKeyPos + 1 ≤ u.buf.len) :
    (∃ ret, Read r u = some ret ∧
      ret.n = (r.escapeKeyPos : Int) + 1 ∧ ret.err = none ∧
      ret.buf.len = u.buf.len ∧
      ret.buf.data.take (r.escapeKeyPos + 1) = r.escapeKeys.take r.escapeKeyPos ++ [b] ∧
      ret.r.escapeKeyPos = 0 ∧ ret.r.escapeKeys = r.escapeKeys) ∧
    (run (NewEscapeProxy 0 [65, 66])
        [oneByte Unit 65 1, oneByte Unit 65 1, oneByte Unit 66 1]).map
      (List.map fun o => (o.n, delivered o, o.err, o.r.escapeKeyPos)) =
      some [(0, [], none, 1), (2, [65, 65], none, 0), (1, [66], none, 0)] := by
  refine ⟨?_, by rfl⟩
  have hk : r.escapeKeyPos < r.escapeKeys.length := by
    simp only [List.get?_eq_getElem?] at hkey
    exact (List.getElem?_eq_some_iff.mp hkey).1
  obtain ⟨ret, h1, h2, h3, h4, h5, _, h7, _⟩ :=
    flush_spec r u.buf 1 (none : Option (Error ε)) (Nat.le_of_lt hk) (by omega)
      (Nat.le_trans (by omega) (len_le_cap u.buf))
  refine ⟨ret, ?_, ?_, h4, h5, ?_, ?_, ?_⟩
  · rw [Read_of_single r u b s hS hnr herr hb hkey, if_pos hne, hnr]
    exact h1
  · rw [h3]; push_cast; omega
  · rw [take_data_of_le _ _ (by omega), Nat.add_comm, h7, take_one_of_head hb]
  · rw [h2]
  · rw [h2]

/-- C10 at `S = AB` with `A` withheld and a single-byte read of `A` (which is `S[0]`). -/
theorem C10_mismatch_step_witness :
    (∃ ret, Read { escapeKeys := [65, 66], escapeKeyPos := 1, r := 0 } (oneByte Unit 65 1) =
        some ret ∧
      ret.n = ((1 : Nat) : Int) + 1 ∧ ret.err = none ∧
      ret.buf.len = (oneByte Unit 65 1).buf.len ∧
      ret.buf.data.take (1 + 1) = List.take 1 [65, 66] ++ [65] ∧
      ret.r.escapeKeyPos = 0 ∧ ret.r.escapeKeys = [65, 66]) ∧
    (run (NewEscapeProxy 0 [65, 66])
        [oneByte Unit 65 1, oneByte Unit 65 1, oneByte Unit 66 1]).map
      (List.map fun o => (o.n, delivered o, o.err, o.r.escapeKeyPos)) =
      some [(0, [], none, 1), (2, [65, 65], none, 0), (1, [66], none, 0)] :=
  C10_mismatch_step { escapeKeys := [65, 66], escapeKeyPos := 1, r := 0 } (oneByte Unit 65 1)
    65 66 (by decide) (by decide) (by decide) (by decide) (by decide) (by decide) (by decide)

/-! ## How one call moves the cursor -/

theorem flush_receiver {ε : Type} (r : escapeProxy) (buf : Slice) (nr : Int)
    (err : Option (Error ε)) (ret : Return ε) (h : flush r buf nr err = some ret) :
    ret.r.escapeKeys = r.escapeKeys ∧ ret.r.escapeKeyPos = 0 := by
  unfold flush at h
  split_ifs at h with hpos
  · unfold preserve at h
    simp only at h
    split_ifs at h with h1 h2
    · simp only [Option.some.injEq] at h
      subst h
      exact ⟨rfl, rfl⟩
  · simp only [Option.some.injEq] at h
    subst h
    exact ⟨rfl, by simp only; omega⟩

/-- A call of `Read` that returns keeps the escape keys, and leaves the cursor at 0, or
where it was, or one further with the new value still below `len(escapeKeys) - 1 + 1`. -/
theorem Read_receiver {ε : Type} (r : escapeProxy) (u : ReadResult ε) (ret : Return ε)
    (h : Read r u = some ret) :
    ret.r.escapeKeys = r.escapeKeys ∧
      (ret.r.escapeKeyPos = 0 ∨ ret.r = r ∨
        (ret.r.escapeKeyPos = r.escapeKeyPos + 1 ∧
          r.escapeKeyPos + 1 < r.escapeKeys.length)) := by
  by_cases hS : r.escapeKeys = []
  · rw [Read_of_no_keys r u hS, Option.some.injEq] at h
    subst h
    exact ⟨rfl, Or.inr (Or.inl rfl)⟩
  · have h0 : ¬ r.escapeKeys.length = 0 := fun hl => hS (List.length_eq_zero.mp hl)
    by_cases hf : u.nr ≠ 1 ∨ u.err.isSome
    · rw [Read_of_flush r u hS hf] at h
      obtain ⟨a, b⟩ := flush_receiver _ _ _ _ _ h
      exact ⟨a, Or.inl b⟩
    · have hnr : u.nr = 1 := by
        by_contra hc; exact hf (Or.inl hc)
      have herr : u.err = none := by
        cases he : u.err with
        | none => rfl
        | some e => exact absurd (Or.inr (by simp [he])) hf
      cases hb : u.buf.data.head? with
      | none =>
        simp only [Read, h0, hf, hb, if_false] at h
        cases h
      | some b =>
        cases hk : r.escapeKeys.get? r.escapeKeyPos with
        | none =>
          simp only [Read, h0, hf, hb, hk, if_false] at h
          cases h
        | some k =>
          rw [Read_of_single r u b k hS hnr herr hb hk] at h
          split_ifs at h with hbk hlast
          · obtain ⟨a, b⟩ := flush_receiver _ _ _ _ _ h
            exact ⟨a, Or.inl b⟩
          · simp only [Option.some.injEq] at h
            subst h
            exact ⟨rfl, Or.inr (Or.inl rfl)⟩
          · simp only [Option.some.injEq] at h
            subst h
            refine ⟨rfl, Or.inr (Or.inr ⟨rfl, ?_⟩)⟩
            simp only [List.get?_eq_getElem?] at hk
            have := (List.getElem?_eq_some_iff.mp hk).1
            omega

/-- In a reachable state the escape keys are those given to `NewEscapeProxy`, and the
cursor is 0 or below `len(S) - 1 + 1`. -/
theorem reachable_cursor (S : List Byte) (r : escapeProxy) (h : Reachable S r) :
    r.escapeKeys = S ∧ (r.escapeKeyPos = 0 ∨ r.escapeKeyPos < S.length) := by
  induction h with
  | fresh h => exact ⟨rfl, Or.inl rfl⟩
  | step u ret _ hread ih =>
    obtain ⟨hk, hc⟩ := Read_receiver _ u ret hread
    refine ⟨hk.trans ih.1, ?_⟩
    rcases hc with h0 | hsame | ⟨_, hlt⟩
    · exact Or.inl h0
    · rw [hsame]; exact ih.2
    · right
      rw [← ih.1]
      omega

/-! ## C11: the partial-match step -/

/-- C11 (partial-match step). For `len(S) ≥ 2`, a state with
`k = escapeKeyPos < len(S) - 1` and an error-free single-byte read of `S[k]`: `Read`
returns a nil error, `escapeKeyPos` becomes `k + 1`, and the returned count is
`1 - (k + 1)`; the buffer is left as the wrapped reader left it. -/
theorem C11_partial_match_step {ε : Type} (r : escapeProxy) (u : ReadResult ε) (s : Byte)
    (hlen : 2 ≤ r.escapeKeys.length) (hk : r.escapeKeyPos < r.escapeKeys.length - 1)
    (hkey : r.escapeKeys.get? r.escapeKeyPos = some s)
    (hnr : u.nr = 1) (herr : u.err = none) (hb : u.buf.data.head? = some s) :
    ∃ ret, Read r u = some ret ∧ ret.err = none ∧
      ret.r.escapeKeyPos = r.escapeKeyPos + 1 ∧
      ret.n = 1 - ((r.escapeKeyPos + 1 : Nat) : Int) ∧
      ret.buf = u.buf ∧ ret.r.escapeKeys = r.escapeKeys := by
  have hS : r.escapeKeys ≠ [] := by
    intro hnil
    rw [hnil] at hlen
    simp at hlen
  have hread := Read_of_single r u s s hS hnr herr hb hkey
  rw [if_neg (by simp), if_neg (by omega)] at hread
  exact ⟨_, hread, rfl, rfl, by rw [hnr], rfl, rfl⟩

/-- C11 at `S = ABC` with `A` withheld and a single-byte read of `B`: the count is `-1`. -/
theorem C11_partial_match_step_witness :
    ∃ ret, Read { escapeKeys := [65, 66, 67], escapeKeyPos := 1, r := 0 } (oneByte Unit 66 0) =
        some ret ∧ ret.err = none ∧
      ret.r.escapeKeyPos = 1 + 1 ∧
      ret.n = 1 - ((1 + 1 : Nat) : Int) ∧
      ret.buf = (oneByte Unit 66 0).buf ∧ ret.r.escapeKeys = [65, 66, 67] :=
  C11_partial_match_step { escapeKeys := [65, 66, 67], escapeKeyPos := 1, r := 0 }
    (oneByte Unit 66 0) 66 (by decide) (by decide) (by decide) (by decide) (by decide)
    (by decide)

/-! ## C12: reads of zero or several bytes -/

/-- C12 (multi-byte reads). For a non-empty escape sequence, a state with
`k = escapeKeyPos ≤ len(S)`, and an error-free read of `n` bytes with `n = 0` or `n ≥ 2`
and `n + k ≤ len(buf)`: `Read` returns `(n + k, nil)`, so never `EscapeError`, the first
`n + k` bytes of the buffer are `S[0:k]` followed by the `n` bytes read, whatever they
are, and `escapeKeyPos` becomes 0. -/
theorem C12_multi_byte_short_circuit {ε : Type} (r : escapeProxy) (u : ReadResult ε) (n : Nat)
    (hS : r.escapeKeys ≠ []) (hk : r.escapeKeyPos ≤ r.escapeKeys.length)
    (hn : u.nr = (n : Int)) (hn1 : n = 0 ∨ 2 ≤ n) (herr : u.err = none)
    (hle : n + r.escapeKeyPos ≤ u.buf.len) :
    ∃ ret, Read r u = some ret ∧
      ret.n = (n : Int) + (r.escapeKeyPos : Int) ∧ ret.err = none ∧
      ret.err ≠ some Error.EscapeError ∧
      ret.buf.len = u.buf.len ∧
      ret.buf.data.take (n + r.escapeKeyPos) =
        r.escapeKeys.take r.escapeKeyPos ++ u.buf.data.take n ∧
      ret.r.escapeKeyPos = 0 ∧ ret.r.escapeKeys = r.escapeKeys := by
  have hcap : n + r.escapeKeyPos ≤ u.buf.cap := Nat.le_trans hle (len_le_cap _)
  obtain ⟨ret, h1, h2, h3, h4, h5, _, h7, _⟩ :=
    flush_spec r u.buf n (none : Option (Error ε)) hk (by omega) hcap
  refine ⟨ret, ?_, h3, h4, ?_, h5, ?_, ?_, ?_⟩
  · rw [Read_of_flush r u hS (Or.inl (by rw [hn]; omega)), hn, herr]
    exact h1
  · rw [h4]; simp
  · rw [take_data_of_le _ _ (by omega), h7]
  · rw [h2]
  · rw [h2]

/-- C12 at `S = AB` with `A` withheld and an error-free read of the two bytes `AB`. -/
theorem C12_multi_byte_short_circuit_witness :
    ∃ ret, Read { escapeKeys := [65, 66], escapeKeyPos := 1, r := 0 }
        ({ buf := { data := [65, 66, 0], spare := [] }, nr := 2, err := none } :
          ReadResult Unit) = some ret ∧
      ret.n = ((2 : Nat) : Int) + ((1 : Nat) : Int) ∧ ret.err = none ∧
      ret.err ≠ some Error.EscapeError ∧
      ret.buf.len = 3 ∧
      ret.buf.data.take (2 + 1) = List.take 1 [65, 66] ++ List.take 2 [65, 66, 0] ∧
      ret.r.escapeKeyPos = 0 ∧ ret.r.escapeKeys = [65, 66] :=
  C12_multi_byte_short_circuit { escapeKeys := [65, 66], escapeKeyPos := 1, r := 0 }
    { buf := { data := [65, 66, 0], spare := [] }, nr := 2, err := none } 2
    (by decide) (by decide) (by decide) (by decide) (by decide) (by decide)

/-! ## C13: an escape sequence of length 1 -/

/-- C13 as stated fails: with `S = [A]`, a fresh proxy and a wrapped read returning
`(0, EscapeError{})`, `Read` returns `EscapeError` although the wrapped read did not
return exactly one byte with a nil error. -/
theorem C13_wrapped_EscapeError_without_key :
    (Read (NewEscapeProxy 0 [65])
      ({ buf := { data := [0], spare := [] }, nr := 0, err := some Error.EscapeError } :
        ReadResult Unit)).map (fun ret => (ret.n, ret.err)) =
      some (0, some Error.EscapeError) :=
  by decide

/-- C13 amended (length-1 escape sequence). For `S = [c]`, in every reachable state
`escapeKeyPos` is 0. A wrapped read that reports one byte with a nil error into an empty
buffer makes `Read` panic at `buf[0]`. For every other wrapped read, `Read` returns
`EscapeError` if and only if either the read returned exactly one byte, that byte is `c`
and the error is nil, or the wrapped error is itself `EscapeError`; in the first case
the count is 0, and in every other case `Read` returns the count and error of the
wrapped reader. The buffer and the receiver are left as they were throughout. -/
theorem C13_single_key {ε : Type} (c : Byte) (r : escapeProxy) (u : ReadResult ε)
    (hreach : Reachable [c] r) :
    r.escapeKeyPos = 0 ∧
    (u.nr = 1 → u.err = none → u.buf.data = [] → Read r u = none) ∧
    (¬ (u.nr = 1 ∧ u.err = none ∧ u.buf.data = []) →
      ∃ ret, Read r u = some ret ∧ ret.r = r ∧ ret.buf = u.buf ∧
        (ret.err = some Error.EscapeError ↔
          ((u.nr = 1 ∧ u.err = none ∧ u.buf.data.head? = some c) ∨
            u.err = some Error.EscapeError)) ∧
        ((u.nr = 1 ∧ u.err = none ∧ u.buf.data.head? = some c) → ret.n = 0) ∧
        (¬ (u.nr = 1 ∧ u.err = none ∧ u.buf.data.head? = some c) →
          ret.n = u.nr ∧ ret.err = u.err)) := by
  obtain ⟨hkeys, hcur⟩ := reachable_cursor [c] r hreach
  have hpos : r.escapeKeyPos = 0 := by
    rcases hcur with h0 | hlt
    · exact h0
    · simp only [List.length_singleton] at hlt; omega
  have hS : r.escapeKeys ≠ [] := by rw [hkeys]; simp
  have h0 : ¬ r.escapeKeys.length = 0 := fun hl => hS (List.length_eq_zero.mp hl)
  refine ⟨hpos, ?_, ?_⟩
  · intro hnr herr hnil
    have hf : ¬ (u.nr ≠ 1 ∨ u.err.isSome = true) := by simp [hnr, herr]
    have hb : u.buf.data.head? = none := by rw [hnil]; rfl
    simp only [Read, h0, hf, hb, if_false]
  intro hok
  by_cases hf : u.nr ≠ 1 ∨ u.err.isSome
  · have hno : ¬ (u.nr = 1 ∧ u.err = none ∧ u.buf.data.head? = some c) := by
      rintro ⟨h1, h2, _⟩
      rcases hf with hf | hf
      · exact hf h1
      · simp [h2] at hf
    refine ⟨_, (Read_of_flush r u hS hf).trans (flush_of_cursor_zero _ _ _ _ hpos),
      rfl, rfl, ?_, ?_, ?_⟩
    · constructor
      · intro he
        exact Or.inr he
      · rintro (h | h)
        · exact absurd h hno
        · exact h
    · intro h
      exact absurd h hno
    · intro _
      exact ⟨rfl, rfl⟩
  · have hnr : u.nr = 1 := by
      by_contra hc; exact hf (Or.inl hc)
    have herr : u.err = none := by
      cases he : u.err with
      | none => rfl
      | some e => exact absurd (Or.inr (by simp [he])) hf
    obtain ⟨b, hb⟩ : ∃ b, u.buf.data.head? = some b := by
      cases hd : u.buf.data with
      | nil => exact absurd ⟨hnr, herr, hd⟩ hok
      | cons a t => exact ⟨a, rfl⟩
    have hkey : r.escapeKeys.get? r.escapeKeyPos = some c := by
      rw [hkeys, hpos]; rfl
    have hread := Read_of_single r u b c hS hnr herr hb hkey
    by_cases hbc : b ≠ c
    · have hno : ¬ (u.nr = 1 ∧ u.err = none ∧ u.buf.data.head? = some c) := by
        rintro ⟨_, _, h3⟩
        rw [hb, Option.some.injEq] at h3
        exact hbc h3
      rw [if_pos hbc, flush_of_cursor_zero _ _ _ _ hpos] at hread
      refine ⟨_, hread, rfl, rfl, ?_, ?_, ?_⟩
      · constructor
        · intro he; simp at he
        · rintro (h | h)
          · exact absurd h hno
          · rw [herr] at h; simp at h
      · intro h
        exact absurd h hno
      · intro _
        exact ⟨rfl, herr.symm⟩
    · have hbc2 : b = c := by
        by_contra hc; exact hbc hc
      have hyes : u.nr = 1 ∧ u.err = none ∧ u.buf.data.head? = some c :=
        ⟨hnr, herr, by rw [hb, hbc2]⟩
      rw [if_neg hbc, if_pos (by rw [hkeys, hpos]; rfl)] at hread
      refine ⟨_, hread, rfl, rfl, ?_, ?_, ?_⟩
      · constructor
        · intro _
          exact Or.inl hyes
        · intro _; rfl
      · intro _; rfl
      · intro hne
        exact absurd hyes hne

/-- C13 amended, at `S = [A]`, a fresh proxy and a single-byte read of `A`. -/
theorem C13_single_key_witness :
    Reachable [65] (NewEscapeProxy 0 [65]) ∧
    (NewEscapeProxy 0 [65]).escapeKeyPos = 0 ∧
    ((oneByte Unit 65 0).nr = 1 → (oneByte Unit 65 0).err = none →
      (oneByte Unit 65 0).buf.data = [] →
      Read (NewEscapeProxy 0 [65]) (oneByte Unit 65 0) = none) ∧
    (¬ ((oneByte Unit 65 0).nr = 1 ∧ (oneByte Unit 65 0).err = none ∧
        (oneByte Unit 65 0).buf.data = []) →
      ∃ ret, Read (NewEscapeProxy 0 [65]) (oneByte Unit 65 0) = some ret ∧
        ret.r = NewEscapeProxy 0 [65] ∧ ret.buf = (oneByte Unit 65 0).buf ∧
        (ret.err = some Error.EscapeError ↔
          (((oneByte Unit 65 0).nr = 1 ∧ (oneByte Unit 65 0).err = none ∧
              (oneByte Unit 65 0).buf.data.head? = some 65) ∨
            (oneByte Unit 65 0).err = some Error.EscapeError)) ∧
        (((oneByte Unit 65 0).nr = 1 ∧ (oneByte Unit 65 0).err = none ∧
            (oneByte Unit 65 0).buf.data.head? = some 65) → ret.n = 0) ∧
        (¬ ((oneByte Unit 65 0).nr = 1 ∧ (oneByte Unit 65 0).err = none ∧
            (oneByte Unit 65 0).buf.data.head? = some 65) →
          ret.n = (oneByte Unit 65 0).nr ∧ ret.err = (oneByte Unit 65 0).err)) :=
  ⟨Reachable.fresh 0,
    C13_single_key 65 (NewEscapeProxy 0 [65]) (oneByte Unit 65 0) (Reachable.fresh 0)⟩

/-! ## C14: the cursor invariant -/

/-- C14 (cursor invariant). In every state reachable from `NewEscapeProxy(r, S)` by calls
of `Read`, the escape keys are `S` and `escapeKeyPos ≤ len(S)`; when `S` is non-empty,
`escapeKeyPos ≤ len(S) - 1`, so `S[escapeKeyPos]` exists and `S[0:escapeKeyPos]` has
`escapeKeyPos` bytes; when `S` is empty, `escapeKeyPos = 0`. -/
theorem C14_cursor_invariant (S : List Byte) (r : escapeProxy) (h : Reachable S r) :
    r.escapeKeys = S ∧ r.escapeKeyPos ≤ S.length ∧
    (S ≠ [] → r.escapeKeyPos ≤ S.length - 1 ∧
      (∃ k, S.get? r.escapeKeyPos = some k) ∧
      (S.take r.escapeKeyPos).length = r.escapeKeyPos) ∧
    (S = [] → r.escapeKeyPos = 0) := by
  obtain ⟨hkeys, hcur⟩ := reachable_cursor S r h
  refine ⟨hkeys, ?_, ?_, ?_⟩
  · rcases hcur with h0 | hlt
    · rw [h0]; exact Nat.zero_le _
    · exact Nat.le_of_lt hlt
  · intro hS
    have hlen : 0 < S.length := List.length_pos.mpr hS
    have hlt : r.escapeKeyPos < S.length := by
      rcases hcur with h0 | hlt
      · rw [h0]; exact hlen
      · exact hlt
    refine ⟨by omega, ⟨S.get ⟨r.escapeKeyPos, hlt⟩, List.get?_eq_get hlt⟩, ?_⟩
    rw [List.length_take]
    omega
  · intro hS
    rcases hcur with h0 | hlt
    · exact h0
    · rw [hS] at hlt
      simp at hlt

/-- C14 at `S = AB` in the state after one single-byte read of `A`. -/
theorem C14_cursor_invariant_witness :
    Reachable [65, 66] { escapeKeys := [65, 66], escapeKeyPos := 1, r := 0 } ∧
    ((1 : Nat) ≤ [(65 : Byte), 66].length ∧
      (([65, 66] : List Byte) ≠ [] → 1 ≤ [(65 : Byte), 66].length - 1 ∧
        (∃ k, [(65 : Byte), 66].get? 1 = some k) ∧
        ([(65 : Byte), 66].take 1).length = 1)) :=
  have hr : Reachable [65, 66] { escapeKeys := [65, 66], escapeKeyPos := 1, r := 0 } :=
    Reachable.step (oneByte Unit 65 0)
      { r := { escapeKeys := [65, 66], escapeKeyPos := 1, r := 0 },
        buf := (oneByte Unit 65 0).buf, n := 0, err := none }
      (Reachable.fresh 0) (by decide)
  ⟨hr, (C14_cursor_invariant [65, 66] _ hr).2.1, (C14_cursor_invariant [65, 66] _ hr).2.2.1⟩

/-! ## C15: buffer-capacity safety -/

/-- C15 (buffer-capacity safety). For a non-empty escape sequence, a reachable state and
a read of the wrapped reader with `0 ≤ n ≤ len(buf)` and `n + escapeKeyPos ≤ len(buf)`:
`Read` does not panic (`S[escapeKeyPos]` exists, `S[0:escapeKeyPos]` is in range, and
`buf[0]` exists when one byte was read), the returned count is at most `len(buf)`, the
buffer keeps its length, and no byte of its backing array at or beyond position
`n + escapeKeyPos` is changed. -/
theorem C15_buffer_capacity_safety {ε : Type} (S : List Byte) (r : escapeProxy)
    (u : ReadResult ε) (n : Nat) (hS : S ≠ []) (hreach : Reachable S r)
    (hn : u.nr = (n : Int)) (hwell : n ≤ u.buf.len)
    (hle : n + r.escapeKeyPos ≤ u.buf.len) :
    ∃ ret, Read r u = some ret ∧ ret.n ≤ (u.buf.len : Int) ∧
      ret.buf.len = u.buf.len ∧
      (∃ k, S.get? r.escapeKeyPos = some k) ∧ r.escapeKeyPos ≤ S.length ∧
      (n = 1 → ∃ b, u.buf.data.head? = some b) ∧
      (ret.buf.data ++ ret.buf.spare).drop (n + r.escapeKeyPos) =
        (u.buf.data ++ u.buf.spare).drop (n + r.escapeKeyPos) := by
  obtain ⟨hkeys, hcur⟩ := reachable_cursor S r hreach
  have hlen : 0 < S.length := List.length_pos.mpr hS
  have hlt : r.escapeKeyPos < S.length := by
    rcases hcur with h0 | hlt
    · rw [h0]; exact hlen
    · exact hlt
  have hSr : r.escapeKeys ≠ [] := by rw [hkeys]; exact hS
  have hkey : ∃ k, S.get? r.escapeKeyPos = some k :=
    ⟨S.get ⟨r.escapeKeyPos, hlt⟩, List.get?_eq_get hlt⟩
  have hhead : n = 1 → ∃ b, u.buf.data.head? = some b := by
    intro h1
    cases hd : u.buf.data with
    | nil => simp [Slice.len, hd, h1] at hwell
    | cons a t => exact ⟨a, rfl⟩
  have hflush : ∀ err : Option (Error ε), Read r u = flush r u.buf u.nr err →
      ∃ ret, Read r u = some ret ∧ ret.n ≤ (u.buf.len : Int) ∧
        ret.buf.len = u.buf.len ∧
        (∃ k, S.get? r.escapeKeyPos = some k) ∧ r.escapeKeyPos ≤ S.length ∧
        (n = 1 → ∃ b, u.buf.data.head? = some b) ∧
        (ret.buf.data ++ ret.buf.spare).drop (n + r.escapeKeyPos) =
          (u.buf.data ++ u.buf.spare).drop (n + r.escapeKeyPos) := by
    intro err hread
    obtain ⟨ret, h1, _, h3, _, h5, _, _, h8⟩ :=
      flush_spec r u.buf n err (by rw [hkeys]; exact Nat.le_of_lt hlt) hwell
        (Nat.le_trans hle (len_le_cap _))
    refine ⟨ret, ?_, ?_, h5, hkey, Nat.le_of_lt hlt, hhead, h8⟩
    · rw [hread, hn, h1]
    · rw [h3]; omega
  by_cases hf : u.nr ≠ 1 ∨ u.err.isSome
  · exact hflush _ (Read_of_flush r u hSr hf)
  · have hnr : u.nr = 1 := by
      by_contra hc; exact hf (Or.inl hc)
    have herr : u.err = none := by
      cases he : u.err with
      | none => rfl
      | some e => exact absurd (Or.inr (by simp [he])) hf
    obtain ⟨b, hb⟩ := hhead (by omega)
    obtain ⟨k, hk⟩ := hkey
    have hread := Read_of_single r u b k hSr hnr herr hb (by rw [hkeys]; exact hk)
    by_cases hbk : b ≠ k
    · rw [if_pos hbk] at hread
      exact hflush none hread
    · rw [if_neg hbk] at hread
      by_cases hlast : r.escapeKeyPos = r.escapeKeys.length - 1
      · rw [if_pos hlast] at hread
        exact ⟨_, hread, Int.natCast_nonneg _, rfl, ⟨k, hk⟩, Nat.le_of_lt hlt, hhead, rfl⟩
      · rw [if_neg hlast] at hread
        refine ⟨_, hread, ?_, rfl, ⟨k, hk⟩, Nat.le_of_lt hlt, hhead, rfl⟩
        show u.nr - ((r.escapeKeyPos + 1 : Nat) : Int) ≤ (u.buf.len : Int)
        omega

/-- C15 at `S = AB` in the state after a single-byte read of `A`, with a single-byte
read of `X` into a buffer of length 3. -/
theorem C15_buffer_capacity_safety_witness :
    Reachable [65, 66] { escapeKeys := [65, 66], escapeKeyPos := 1, r := 0 } ∧
    ∃ ret, Read { escapeKeys := [65, 66], escapeKeyPos := 1, r := 0 } (oneByte Unit 88 2) =
        some ret ∧ ret.n ≤ ((oneByte Unit 88 2).buf.len : Int) ∧
      ret.buf.len = (oneByte Unit 88 2).buf.len ∧
      (∃ k, [(65 : Byte), 66].get? 1 = some k) ∧ 1 ≤ [(65 : Byte), 66].length ∧
      (1 = 1 → ∃ b, (oneByte Unit 88 2).buf.data.head? = some b) ∧
      (ret.buf.data ++ ret.buf.spare).drop (1 + 1) =
        ((oneByte Unit 88 2).buf.data ++ (oneByte Unit 88 2).buf.spare).drop (1 + 1) :=
  have hr : Reachable [65, 66] { escapeKeys := [65, 66], escapeKeyPos := 1, r := 0 } :=
    Reachable.step (oneByte Unit 65 0)
      { r := { escapeKeys := [65, 66], escapeKeyPos := 1, r := 0 },
        buf := (oneByte Unit 65 0).buf, n := 0, err := none }
      (Reachable.fresh 0) (by decide)
  ⟨hr, C15_buffer_capacity_safety [65, 66] _ (oneByte Unit 88 2) 1 (by decide) hr
    (by decide) (by decide) (by decide)⟩

end gottyclient
